import Mathlib

/-!
Verification of the factor algebra and exact-inference engine of the
graphical-models library (PyGModels).  The repository snapshot at hand carries
the documentation, the README and the example notebooks; the Python modules
implementing `Factor`, `FactorOps` and `PGModel.cond_prod_by_variable_elimination`
are not part of the snapshot, so the engine below is modelled from the
specification (sections 3, 4.2 and 4.4) and exercised on the literal reference
examples of `docs/mdpages/usage.md`.

Values are modelled as exact rationals (`ℚ`); outcome values of the random
variables are a type parameter `α` (all reference examples use `Bool`).
An assignment over a scope is a finite set of (variable-id, value) pairs,
matching the set/frozenset semantics of the source's factor functions.
-/

namespace PyGModels

section Core

variable {α : Type} [DecidableEq α]

/-- Modelled from the spec: a numeric categorical random variable
(`NumCatRVariable`): an identity, a finite ordered domain of outcome values,
and a marginal distribution mapping each value to a probability. -/
structure NumCatRVariable (α : Type) where
  node_id : String
  outcome_values : List α
  marginal_distribution : α → ℚ

/-- Edge type: directed or undirected. -/
inductive EdgeType where
  | DIRECTED
  | UNDIRECTED
deriving DecidableEq

/-- Modelled from the spec: an edge has an identity, a type, and an ordered
pair of endpoint random variables. -/
structure Edge (α : Type) where
  edge_id : String
  edge_type : EdgeType
  start_node : NumCatRVariable α
  end_node : NumCatRVariable α

/-- Modelled from the spec: a factor is an identity, a scope (set of random
variables, represented as a list) and a function from scope assignments
(sets of (variable-id, value) pairs) to a rational value. -/
structure Factor (α : Type) [DecidableEq α] where
  gid : String
  scope : List (NumCatRVariable α)
  fn : Finset (String × α) → ℚ

/-- The ids of the variables of a scope. -/
def scopeIds (sc : List (NumCatRVariable α)) : List String :=
  sc.map (fun v => v.node_id)

/-- Restriction of an assignment to the variables named by `ids`. -/
def restrict (ids : List String) (S : Finset (String × α)) : Finset (String × α) :=
  S.filter (fun p => p.1 ∈ ids)

namespace FactorOps

/-- Raw value of a factor at an assignment (`Factor.phi`). -/
def phi (f : Factor α) (S : Finset (String × α)) : ℚ := f.fn S

/-- Modelled from the spec: `Product(f1, f2)`: scope is the union of the two
scopes; the value at a joint assignment is the product of `f1` at the
restriction to `scope(f1)` and `f2` at the restriction to `scope(f2)`. -/
def product (f1 f2 : Factor α) : Factor α :=
  { gid := f1.gid ++ "-" ++ f2.gid
    scope := f1.scope ++ f2.scope.filter (fun v => decide (v.node_id ∉ scopeIds f1.scope))
    fn := fun S =>
      f1.fn (restrict (scopeIds f1.scope) S) * f2.fn (restrict (scopeIds f2.scope) S) }

/-- Modelled from the spec: `Marginalize-out(f, v, SUM)`: scope is
`scope(f) − {v}`; the value at an assignment over the reduced scope is the
sum over `v`'s domain of `f` at the extended assignment. -/
def marginalize_out (f : Factor α) (v : NumCatRVariable α) : Factor α :=
  { gid := f.gid
    scope := f.scope.filter (fun w => decide (w.node_id ≠ v.node_id))
    fn := fun S =>
      (v.outcome_values.map (fun val => f.fn (insert (v.node_id, val) S))).sum }

/-- Modelled from the spec: `Reduce-by-evidence(f, (v, val))`: if `v` is in
the scope, fix `v = val` and drop `v` from the scope; otherwise `f` is
unchanged. -/
def reduce (f : Factor α) (ev : String × α) : Factor α :=
  if ev.1 ∈ scopeIds f.scope then
    { gid := f.gid
      scope := f.scope.filter (fun w => decide (w.node_id ≠ ev.1))
      fn := fun S => f.fn (insert ev S) }
  else f

/-- Modelled from the spec: the scope product, i.e. the Cartesian product of
the domains of the scope variables, each element a set of (id, value) pairs. -/
def scope_product (sc : List (NumCatRVariable α)) : List (Finset (String × α)) :=
  match sc with
  | [] => [∅]
  | v :: rest =>
      v.outcome_values.flatMap (fun val =>
        (scope_product rest).map (fun S => insert (v.node_id, val) S))

/-- Sum of the factor's values over all assignments of its scope. -/
def sumPhi (f : Factor α) : ℚ := ((scope_product f.scope).map f.fn).sum

/-- Modelled from the spec: `Normalize(f, q)` (`phi_normal`): the value at `q`
divided by the sum of the values over all assignments of the scope; fails
with `DivisionByZeroError` when the denominator is zero. -/
def phi_normal (f : Factor α) (q : Finset (String × α)) : Except String ℚ :=
  if sumPhi f = 0 then Except.error "DivisionByZeroError"
  else Except.ok (f.fn q / sumPhi f)

end FactorOps

/-- Modelled from the spec: the identity factor (empty scope, constant 1),
used when a factor set to combine is empty. -/
def identityFactor : Factor α := { gid := "1", scope := [], fn := fun _ => 1 }

/-- Modelled from the spec: Product of a whole list of factors (an empty list
yields the identity factor). -/
def productList : List (Factor α) → Factor α
  | [] => identityFactor
  | f :: rest => FactorOps.product f (productList rest)

/-- Modelled from the spec: one elimination step.  The factors whose scope
contains the variable are gathered, their product is marginalized over the
variable, and the consumed factors are replaced by the new factor; when no
factor mentions the variable it is dropped without producing a factor. -/
def eliminate (fs : List (Factor α)) (v : NumCatRVariable α) : List (Factor α) :=
  let rel := fs.filter (fun f => decide (v.node_id ∈ scopeIds f.scope))
  let rest := fs.filter (fun f => !(decide (v.node_id ∈ scopeIds f.scope)))
  if rel.isEmpty then rest
  else FactorOps.marginalize_out (productList rel) v :: rest

/-- Modelled from the spec: sum-product variable elimination with an explicit
elimination order: evidence reduction of every factor, elimination of the
ordered variables one at a time, combination of the remaining factors, and
the normalization constant (sum of the resultant factor's values). -/
def sum_product_ve (factors : List (Factor α)) (evidences : List (String × α))
    (order : List (NumCatRVariable α)) : Factor α × ℚ :=
  let reduced := factors.map (fun f => evidences.foldl FactorOps.reduce f)
  let final := order.foldl eliminate reduced
  let res := productList final
  (res, FactorOps.sumPhi res)

/-- The resultant factor of `sum_product_ve` (its first component), named for
use in statements about the engine. -/
def veResultant (factors : List (Factor α)) (evidences : List (String × α))
    (order : List (NumCatRVariable α)) : Factor α :=
  productList (order.foldl eliminate
    (factors.map (fun f => evidences.foldl FactorOps.reduce f)))

/-- Modelled from the spec: the default factor derived from an edge when no
factor set is supplied: its scope is the edge's two endpoints and its
function is the product of each endpoint's own marginal distribution at the
endpoint's assigned value. -/
def defaultFactor (e : Edge α) : Factor α :=
  { gid := e.edge_id
    scope := [e.start_node, e.end_node]
    fn := fun S =>
      (S.filter (fun p => p.1 = e.start_node.node_id)).prod
          (fun p => e.start_node.marginal_distribution p.2) *
        (S.filter (fun p => p.1 = e.end_node.node_id)).prod
          (fun p => e.end_node.marginal_distribution p.2) }

/-- Modelled from the spec: the factor set of a model whose `factors`
argument is `None`: one default factor per edge. -/
def modelFactors (edges : List (Edge α)) : Option (List (Factor α)) → List (Factor α)
  | none => edges.map defaultFactor
  | some fs => fs

/-- Modelled from the spec: a probabilistic graphical model: nodes, edges and
a factor set. -/
structure PGModel (α : Type) [DecidableEq α] where
  gid : String
  nodes : List (NumCatRVariable α)
  edges : List (Edge α)
  factors : List (Factor α)

/-- Modelled from the spec: `cond_prod_by_variable_elimination`: the
elimination order is the set of non-query, non-evidence variables in the
order the model's node collection yields them. -/
def cond_prod_by_variable_elimination (m : PGModel α)
    (queries : List (NumCatRVariable α)) (evidences : List (String × α)) :
    Factor α × ℚ :=
  let order := m.nodes.filter (fun v =>
    !(decide (v.node_id ∈ scopeIds queries)) &&
      !(decide (v.node_id ∈ evidences.map (fun e => e.1))))
  sum_product_ve m.factors evidences order

/-- Round a rational to `d` decimal digits (the reference examples print
their results through Python's `round`). -/
def roundTo (d : ℕ) (q : ℚ) : ℚ := (round (q * 10 ^ d) : ℤ) / 10 ^ d

/-! Chain-graph structural invariant (spec section 3, `LWFChainGraph`):
edges inside one chain component (a connected component of the subgraph of
undirected edges) must be undirected, edges between distinct components must
be directed, and the directed graph induced over the components must be
acyclic. -/

/-- Endpoints reachable from `x` along one undirected edge. -/
def undirectedNeighbors (edges : List (Edge α)) (x : String) : List String :=
  edges.filterMap (fun e =>
    if e.edge_type = EdgeType.UNDIRECTED then
      if e.start_node.node_id = x then some e.end_node.node_id
      else if e.end_node.node_id = x then some e.start_node.node_id
      else none
    else none)

/-- One breadth-first expansion step along undirected edges. -/
def expandComponent (edges : List (Edge α)) (cur : List String) : List String :=
  (cur ++ cur.flatMap (undirectedNeighbors edges)).dedup

/-- Iterate a function `n` times. -/
def iterN {β : Type} : ℕ → (β → β) → β → β
  | 0, _, x => x
  | n + 1, f, x => iterN n f (f x)

/-- The chain component of `x`: the ids connected to `x` through undirected
edges (breadth-first closure, one expansion per node of the graph). -/
def chainComponent (nodes : List (NumCatRVariable α)) (edges : List (Edge α))
    (x : String) : List String :=
  iterN nodes.length (expandComponent edges) [x]

/-- Whether `x` and `y` lie in the same chain component. -/
def sameComponent (nodes : List (NumCatRVariable α)) (edges : List (Edge α))
    (x y : String) : Bool :=
  (chainComponent nodes edges x).contains y

/-- A canonical representative of the chain component of `x`: the first node
of the model's node list belonging to it. -/
def componentRep (nodes : List (NumCatRVariable α)) (edges : List (Edge α))
    (x : String) : String :=
  (((scopeIds nodes).filter (fun y => sameComponent nodes edges x y)).headD x)

/-- One pruning step of Kahn's algorithm on a vertex/edge list pair: vertices
without incoming edges are removed together with their outgoing edges. -/
def pruneSources (p : List String × List (String × String)) :
    List String × List (String × String) :=
  let srcs := p.1.filter (fun v => !(p.2.any (fun e => e.2 = v)))
  (p.1.filter (fun v => !(srcs.contains v)), p.2.filter (fun e => !(srcs.contains e.1)))

/-- A directed graph given by vertex and edge lists is acyclic when repeated
source removal empties it. -/
def acyclicOn (vs : List String) (es : List (String × String)) : Bool :=
  (iterN vs.length pruneSources (vs, es)).1.isEmpty

/-- Modelled from the spec: the `LWFChainGraph` construction invariant:
every directed edge joins two distinct chain components and the induced
directed graph over the component representatives is acyclic (undirected
edges lie inside one component by construction). -/
def lwf_mixed_edge_invariant (nodes : List (NumCatRVariable α))
    (edges : List (Edge α)) : Bool :=
  let rep := componentRep nodes edges
  let comps := ((scopeIds nodes).map rep).dedup
  let compEdges := edges.filterMap (fun e =>
    if e.edge_type = EdgeType.DIRECTED then
      some (rep e.start_node.node_id, rep e.end_node.node_id)
    else none)
  edges.all (fun e =>
      e.edge_type = EdgeType.UNDIRECTED ||
        !(rep e.start_node.node_id = rep e.end_node.node_id)) &&
    acyclicOn comps compEdges

/-! Semantic layer used to reason about the engine: a total valuation of the
variable ids, the assignment a scope induces from a valuation, and summation
of a quantity over the domains of a list of variables. -/

/-- Update a valuation at one variable id. -/
def upd (σ : String → α) (i : String) (x : α) : String → α :=
  fun j => if j = i then x else σ j

/-- The assignment a scope induces from a total valuation. -/
def assignmentOf (sc : List (NumCatRVariable α)) (σ : String → α) :
    Finset (String × α) :=
  (sc.map (fun v => (v.node_id, σ v.node_id))).toFinset

/-- Value of a factor under a total valuation. -/
def evalAt (f : Factor α) (σ : String → α) : ℚ := f.fn (assignmentOf f.scope σ)

/-- Product of the values of a list of factors under a total valuation. -/
def evalProd (fs : List (Factor α)) (σ : String → α) : ℚ :=
  (fs.map (fun f => evalAt f σ)).prod

/-- Sum of a quantity over all joint values of a list of variables, the
first variable of the list being summed innermost. -/
def sumOver : List (NumCatRVariable α) → ((String → α) → ℚ) → (String → α) → ℚ
  | [], g, σ => g σ
  | v :: rest, g, σ =>
      sumOver rest
        (fun τ => (v.outcome_values.map (fun val => g (upd τ v.node_id val))).sum) σ

/-- A variable id occurs in the scope of some factor of the list. -/
def occursIn (x : String) (fs : List (Factor α)) : Prop :=
  ∃ f ∈ fs, x ∈ scopeIds f.scope

instance (x : String) (fs : List (Factor α)) : Decidable (occursIn x fs) :=
  List.decidableBEx _ fs

end Core

/-! ### Reference example 1: Darwiche 2009, p. 140 (usage.md, PGModel) -/

namespace DarwicheEx

def a : NumCatRVariable Bool :=
  { node_id := "a", outcome_values := [true, false]
    marginal_distribution := fun x => if x then 0.6 else 0.4 }

def b : NumCatRVariable Bool :=
  { node_id := "b", outcome_values := [true, false]
    marginal_distribution := fun _ => 0.5 }

def c : NumCatRVariable Bool :=
  { node_id := "c", outcome_values := [true, false]
    marginal_distribution := fun _ => 0.5 }

def ab : Edge Bool :=
  { edge_id := "ab", edge_type := EdgeType.UNDIRECTED, start_node := a, end_node := b }

def bc : Edge Bool :=
  { edge_id := "bc", edge_type := EdgeType.UNDIRECTED, start_node := b, end_node := c }

def phi_ba_fn : Finset (String × Bool) → ℚ := fun ss =>
  if ss = {("a", true), ("b", true)} then 0.9
  else if ss = {("a", true), ("b", false)} then 0.1
  else if ss = {("a", false), ("b", true)} then 0.2
  else if ss = {("a", false), ("b", false)} then 0.8
  else 0

def phi_cb_fn : Finset (String × Bool) → ℚ := fun ss =>
  if ss = {("c", true), ("b", true)} then 0.3
  else if ss = {("c", true), ("b", false)} then 0.5
  else if ss = {("c", false), ("b", true)} then 0.7
  else if ss = {("c", false), ("b", false)} then 0.5
  else 0

def phi_a_fn : Finset (String × Bool) → ℚ := fun s =>
  if s = {("a", true)} then 0.6
  else if s = {("a", false)} then 0.4
  else 0

def ba_f : Factor Bool := { gid := "ba", scope := [b, a], fn := phi_ba_fn }
def cb_f : Factor Bool := { gid := "cb", scope := [c, b], fn := phi_cb_fn }
def a_f : Factor Bool := { gid := "a", scope := [a], fn := phi_a_fn }

def pgm : PGModel Bool :=
  { gid := "pgm", nodes := [a, b, c], edges := [ab, bc], factors := [ba_f, cb_f, a_f] }

def queryResult : Factor Bool × ℚ :=
  cond_prod_by_variable_elimination pgm [c] [("a", true)]

end DarwicheEx

/-! ### Reference example 2: Bayesian network (usage.md, BayesianNetwork) -/

namespace BayesEx

def C : NumCatRVariable Bool :=
  { node_id := "C", outcome_values := [true, false], marginal_distribution := fun _ => 0.5 }

def E : NumCatRVariable Bool :=
  { node_id := "E", outcome_values := [true, false], marginal_distribution := fun _ => 0.5 }

def F : NumCatRVariable Bool :=
  { node_id := "F", outcome_values := [true, false], marginal_distribution := fun _ => 0.5 }

def D : NumCatRVariable Bool :=
  { node_id := "D", outcome_values := [true, false], marginal_distribution := fun _ => 0.5 }

def CE : Edge Bool :=
  { edge_id := "CE", edge_type := EdgeType.DIRECTED, start_node := C, end_node := E }

def ED : Edge Bool :=
  { edge_id := "ED", edge_type := EdgeType.DIRECTED, start_node := E, end_node := D }

def EF : Edge Bool :=
  { edge_id := "EF", edge_type := EdgeType.DIRECTED, start_node := E, end_node := F }

def phi_c_fn : Finset (String × Bool) → ℚ := fun ss =>
  if ss = {("C", true)} then 0.8
  else if ss = {("C", false)} then 0.2
  else 0

def phi_ec_fn : Finset (String × Bool) → ℚ := fun ss =>
  if ss = {("C", true), ("E", true)} then 0.9
  else if ss = {("C", true), ("E", false)} then 0.1
  else if ss = {("C", false), ("E", true)} then 0.7
  else if ss = {("C", false), ("E", false)} then 0.3
  else 0

def phi_fe_fn : Finset (String × Bool) → ℚ := fun ss =>
  if ss = {("E", true), ("F", true)} then 0.9
  else if ss = {("E", true), ("F", false)} then 0.1
  else if ss = {("E", false), ("F", true)} then 0.5
  else if ss = {("E", false), ("F", false)} then 0.5
  else 0

def phi_de_fn : Finset (String × Bool) → ℚ := fun ss =>
  if ss = {("E", true), ("D", true)} then 0.7
  else if ss = {("E", true), ("D", false)} then 0.3
  else if ss = {("E", false), ("D", true)} then 0.4
  else if ss = {("E", false), ("D", false)} then 0.6
  else 0

def CE_f : Factor Bool := { gid := "CE_f", scope := [C, E], fn := phi_ec_fn }
def C_f : Factor Bool := { gid := "C_f", scope := [C], fn := phi_c_fn }
def FE_f : Factor Bool := { gid := "FE_f", scope := [F, E], fn := phi_fe_fn }
def DE_f : Factor Bool := { gid := "DE_f", scope := [D, E], fn := phi_de_fn }

def bayes_n : PGModel Bool :=
  { gid := "ba", nodes := [C, E, D, F], edges := [EF, CE, ED]
    factors := [C_f, DE_f, CE_f, FE_f] }

def queryResult : Factor Bool × ℚ :=
  cond_prod_by_variable_elimination bayes_n [E] [("F", true)]

end BayesEx

/-! ### Reference example 3: misconception Markov network (usage.md) -/

namespace MisconceptionEx

def A : NumCatRVariable Bool :=
  { node_id := "A", outcome_values := [true, false], marginal_distribution := fun _ => 0.5 }

def B : NumCatRVariable Bool :=
  { node_id := "B", outcome_values := [true, false], marginal_distribution := fun _ => 0.5 }

def C : NumCatRVariable Bool :=
  { node_id := "C", outcome_values := [true, false], marginal_distribution := fun _ => 0.5 }

def D : NumCatRVariable Bool :=
  { node_id := "D", outcome_values := [true, false], marginal_distribution := fun _ => 0.5 }

def AB : Edge Bool :=
  { edge_id := "AB", edge_type := EdgeType.UNDIRECTED, start_node := A, end_node := B }

def AD : Edge Bool :=
  { edge_id := "AD", edge_type := EdgeType.UNDIRECTED, start_node := A, end_node := D }

def DC : Edge Bool :=
  { edge_id := "DC", edge_type := EdgeType.UNDIRECTED, start_node := D, end_node := C }

def BC : Edge Bool :=
  { edge_id := "BC", edge_type := EdgeType.UNDIRECTED, start_node := B, end_node := C }

def phi_AB_fn : Finset (String × Bool) → ℚ := fun ss =>
  if ss = {("A", false), ("B", false)} then 30.0
  else if ss = {("A", false), ("B", true)} then 5.0
  else if ss = {("A", true), ("B", false)} then 1.0
  else if ss = {("A", true), ("B", true)} then 10.0
  else 0

def phi_BC_fn : Finset (String × Bool) → ℚ := fun ss =>
  if ss = {("B", false), ("C", false)} then 100.0
  else if ss = {("B", false), ("C", true)} then 1.0
  else if ss = {("B", true), ("C", false)} then 1.0
  else if ss = {("B", true), ("C", true)} then 100.0
  else 0

def phi_CD_fn : Finset (String × Bool) → ℚ := fun ss =>
  if ss = {("C", false), ("D", false)} then 1.0
  else if ss = {("C", false), ("D", true)} then 100.0
  else if ss = {("C", true), ("D", false)} then 100.0
  else if ss = {("C", true), ("D", true)} then 1.0
  else 0

def phi_DA_fn : Finset (String × Bool) → ℚ := fun ss =>
  if ss = {("D", false), ("A", false)} then 100.0
  else if ss = {("D", false), ("A", true)} then 1.0
  else if ss = {("D", true), ("A", false)} then 1.0
  else if ss = {("D", true), ("A", true)} then 100.0
  else 0

def AB_f : Factor Bool := { gid := "ab_f", scope := [A, B], fn := phi_AB_fn }
def BC_f : Factor Bool := { gid := "bc_f", scope := [B, C], fn := phi_BC_fn }
def CD_f : Factor Bool := { gid := "cd_f", scope := [C, D], fn := phi_CD_fn }
def DA_f : Factor Bool := { gid := "da_f", scope := [D, A], fn := phi_DA_fn }

def mnetwork : PGModel Bool :=
  { gid := "mnet", nodes := [A, B, C, D], edges := [AB, AD, BC, DC]
    factors := [DA_f, CD_f, BC_f, AB_f] }

def queryResult : Factor Bool × ℚ :=
  cond_prod_by_variable_elimination mnetwork [A, B] []

end MisconceptionEx

/-! ### Reference example 4: conditional random field (usage.md, Koller,
Friedman 2009, p. 144-145, example 4.20).  The factor functions of the source
return `math.exp` of a weight; the exponential is kept abstract as a function
`e`, of which the claims only use that `exp 0 = 1` and `exp` is positive. -/

namespace CrfEx

def X_1 : NumCatRVariable Bool :=
  { node_id := "X_1", outcome_values := [true, false], marginal_distribution := fun _ => 0.5 }

def X_2 : NumCatRVariable Bool :=
  { node_id := "X_2", outcome_values := [true, false], marginal_distribution := fun _ => 0.5 }

def X_3 : NumCatRVariable Bool :=
  { node_id := "X_3", outcome_values := [true, false], marginal_distribution := fun _ => 0.5 }

def Y_1 : NumCatRVariable Bool :=
  { node_id := "Y_1", outcome_values := [true, false], marginal_distribution := fun _ => 0.5 }

def X1_Y1 : Edge Bool :=
  { edge_id := "X1_Y1", edge_type := EdgeType.UNDIRECTED, start_node := X_1, end_node := Y_1 }

def X2_Y1 : Edge Bool :=
  { edge_id := "X2_Y1", edge_type := EdgeType.UNDIRECTED, start_node := X_2, end_node := Y_1 }

def X3_Y1 : Edge Bool :=
  { edge_id := "X3_Y1", edge_type := EdgeType.UNDIRECTED, start_node := X_3, end_node := Y_1 }

/-- Modelled from the spec: `phi_X1_Y1` with weight `w = 0.5`; `e` stands for
`math.exp`. -/
def phi_X1_Y1_fn (e : ℚ → ℚ) : Finset (String × Bool) → ℚ := fun ss =>
  if ss = {("X_1", true), ("Y_1", true)} then e (1.0 * 0.5) else e 0

/-- Modelled from the spec: `phi_X2_Y1` with weight `w = 5.0`. -/
def phi_X2_Y1_fn (e : ℚ → ℚ) : Finset (String × Bool) → ℚ := fun ss =>
  if ss = {("X_2", true), ("Y_1", true)} then e (1.0 * 5.0) else e 0

/-- Modelled from the spec: `phi_X3_Y1` with weight `w = 9.4`. -/
def phi_X3_Y1_fn (e : ℚ → ℚ) : Finset (String × Bool) → ℚ := fun ss =>
  if ss = {("X_3", true), ("Y_1", true)} then e (1.0 * 9.4) else e 0

/-- Modelled from the spec: `phi_Y1` with weight `w = 0.6`. -/
def phi_Y1_fn (e : ℚ → ℚ) : Finset (String × Bool) → ℚ := fun ss =>
  if ss = {("Y_1", true)} then e (1.0 * 0.6) else e 0

def X1_Y1_f (e : ℚ → ℚ) : Factor Bool :=
  { gid := "x1_y1_f", scope := [X_1, Y_1], fn := phi_X1_Y1_fn e }

def X2_Y1_f (e : ℚ → ℚ) : Factor Bool :=
  { gid := "x2_y1_f", scope := [X_2, Y_1], fn := phi_X2_Y1_fn e }

def X3_Y1_f (e : ℚ → ℚ) : Factor Bool :=
  { gid := "x3_y1_f", scope := [X_3, Y_1], fn := phi_X3_Y1_fn e }

def Y1_f (e : ℚ → ℚ) : Factor Bool :=
  { gid := "y1_f", scope := [Y_1], fn := phi_Y1_fn e }

/-- The conditional random field of the example: observed variables
`X_1, X_2, X_3`, target variable `Y_1`. -/
def crf_koller (e : ℚ → ℚ) : PGModel Bool :=
  { gid := "crf", nodes := [X_1, X_2, X_3, Y_1], edges := [X1_Y1, X2_Y1, X3_Y1]
    factors := [X1_Y1_f e, X2_Y1_f e, X3_Y1_f e, Y1_f e] }

def queryResult (e : ℚ → ℚ) : Factor Bool × ℚ :=
  cond_prod_by_variable_elimination (crf_koller e) [X_1, X_2, X_3] [("Y_1", false)]

end CrfEx

/-! ### Reference example 5: LWF chain graph (usage.md, Cowell 2005, p. 110) -/

namespace CowellEx

def Smoking : NumCatRVariable Bool :=
  { node_id := "Smoking", outcome_values := [true, false], marginal_distribution := fun _ => 0.5 }

def Bronchitis : NumCatRVariable Bool :=
  { node_id := "Bronchitis", outcome_values := [true, false], marginal_distribution := fun _ => 0.5 }

def LungCancer : NumCatRVariable Bool :=
  { node_id := "LungCancer", outcome_values := [true, false], marginal_distribution := fun _ => 0.5 }

def EitherTL : NumCatRVariable Bool :=
  { node_id := "EitherTL", outcome_values := [true, false], marginal_distribution := fun _ => 0.5 }

def VisitAsia : NumCatRVariable Bool :=
  { node_id := "VisitAsia", outcome_values := [true, false], marginal_distribution := fun _ => 0.5 }

def Tuberculosis : NumCatRVariable Bool :=
  { node_id := "Tuberculosis", outcome_values := [true, false], marginal_distribution := fun _ => 0.5 }

def Xray : NumCatRVariable Bool :=
  { node_id := "Xray", outcome_values := [true, false], marginal_distribution := fun _ => 0.5 }

def Cough : NumCatRVariable Bool :=
  { node_id := "Cough", outcome_values := [true, false], marginal_distribution := fun _ => 0.5 }

def Dysponea : NumCatRVariable Bool :=
  { node_id := "Dysponea", outcome_values := [true, false], marginal_distribution := fun _ => 0.5 }

def SmokingBronchitis_c : Edge Bool :=
  { edge_id := "SmokingBronchitis", edge_type := EdgeType.DIRECTED
    start_node := Smoking, end_node := Bronchitis }

def SmokingLungCancer_c : Edge Bool :=
  { edge_id := "SmokingLungCancer", edge_type := EdgeType.DIRECTED
    start_node := Smoking, end_node := LungCancer }

def LungCancerEitherTL_c : Edge Bool :=
  { edge_id := "LungCancerEitherTL", edge_type := EdgeType.DIRECTED
    start_node := LungCancer, end_node := EitherTL }

def VisitAsiaTuberculosis_c : Edge Bool :=
  { edge_id := "VisitAsiaF", edge_type := EdgeType.DIRECTED
    start_node := VisitAsia, end_node := Tuberculosis }

def TuberculosisEitherTL_c : Edge Bool :=
  { edge_id := "TuberculosisEitherTL", edge_type := EdgeType.DIRECTED
    start_node := Tuberculosis, end_node := EitherTL }

def EitherTLXray_c : Edge Bool :=
  { edge_id := "EitherTLXray", edge_type := EdgeType.DIRECTED
    start_node := EitherTL, end_node := Xray }

def EitherTLCough_c : Edge Bool :=
  { edge_id := "EitherTLCough", edge_type := EdgeType.DIRECTED
    start_node := EitherTL, end_node := Cough }

def BronchitisCough_c : Edge Bool :=
  { edge_id := "BronchitisCough", edge_type := EdgeType.DIRECTED
    start_node := Bronchitis, end_node := Cough }

def BronchitisDysponea_c : Edge Bool :=
  { edge_id := "BronchitisI", edge_type := EdgeType.DIRECTED
    start_node := Bronchitis, end_node := Dysponea }

def CoughDysponea_c : Edge Bool :=
  { edge_id := "CoughI", edge_type := EdgeType.UNDIRECTED
    start_node := Cough, end_node := Dysponea }

def phi_VisitAsia_fn : Finset (String × Bool) → ℚ := fun ss =>
  if ss = {("VisitAsia", true)} then 0.01
  else if ss = {("VisitAsia", false)} then 0.99
  else 0

def phi_TuberculosisVisitAsia_fn : Finset (String × Bool) → ℚ := fun ss =>
  if ss = {("Tuberculosis", true), ("VisitAsia", true)} then 0.05
  else if ss = {("Tuberculosis", false), ("VisitAsia", true)} then 0.95
  else if ss = {("Tuberculosis", true), ("VisitAsia", false)} then 0.01
  else if ss = {("Tuberculosis", false), ("VisitAsia", false)} then 0.99
  else 0

def phi_EitherTLXray_fn : Finset (String × Bool) → ℚ := fun ss =>
  if ss = {("EitherTL", true), ("Xray", true)} then 0.98
  else if ss = {("EitherTL", false), ("Xray", true)} then 0.05
  else if ss = {("EitherTL", true), ("Xray", false)} then 0.02
  else if ss = {("EitherTL", false), ("Xray", false)} then 0.95
  else 0

def phi_Smoking_fn : Finset (String × Bool) → ℚ := fun ss =>
  if ss = {("Smoking", true)} then 0.5
  else if ss = {("Smoking", false)} then 0.5
  else 0

def phi_SmokingBronchitis_fn : Finset (String × Bool) → ℚ := fun ss =>
  if ss = {("Smoking", true), ("Bronchitis", true)} then 0.6
  else if ss = {("Smoking", false), ("Bronchitis", true)} then 0.3
  else if ss = {("Smoking", true), ("Bronchitis", false)} then 0.4
  else if ss = {("Smoking", false), ("Bronchitis", false)} then 0.7
  else 0

def phi_SmokingLungCancer_fn : Finset (String × Bool) → ℚ := fun ss =>
  if ss = {("Smoking", true), ("LungCancer", true)} then 0.1
  else if ss = {("Smoking", false), ("LungCancer", true)} then 0.01
  else if ss = {("Smoking", true), ("LungCancer", false)} then 0.9
  else if ss = {("Smoking", false), ("LungCancer", false)} then 0.99
  else 0

def phi_LungCancerEitherTLTuberculosis_fn : Finset (String × Bool) → ℚ := fun ss =>
  if ss = {("LungCancer", true), ("EitherTL", true), ("Tuberculosis", true)} then 1
  else if ss = {("LungCancer", true), ("EitherTL", false), ("Tuberculosis", true)} then 0
  else if ss = {("LungCancer", false), ("EitherTL", true), ("Tuberculosis", true)} then 1
  else if ss = {("LungCancer", false), ("EitherTL", false), ("Tuberculosis", true)} then 0
  else if ss = {("LungCancer", true), ("EitherTL", true), ("Tuberculosis", false)} then 1
  else if ss = {("LungCancer", true), ("EitherTL", false), ("Tuberculosis", false)} then 0
  else if ss = {("LungCancer", false), ("EitherTL", true), ("Tuberculosis", false)} then 0
  else if ss = {("LungCancer", false), ("EitherTL", false), ("Tuberculosis", false)} then 1
  else 0

def phi_DysponeaCoughBronchitis_fn : Finset (String × Bool) → ℚ := fun ss =>
  if ss = {("Cough", true), ("Dysponea", true), ("Bronchitis", true)} then 16
  else if ss = {("Cough", true), ("Dysponea", false), ("Bronchitis", true)} then 1
  else if ss = {("Cough", false), ("Dysponea", true), ("Bronchitis", true)} then 4
  else if ss = {("Cough", false), ("Dysponea", false), ("Bronchitis", true)} then 1
  else if ss = {("Cough", true), ("Dysponea", true), ("Bronchitis", false)} then 2
  else if ss = {("Cough", true), ("Dysponea", false), ("Bronchitis", false)} then 1
  else if ss = {("Cough", false), ("Dysponea", true), ("Bronchitis", false)} then 1
  else if ss = {("Cough", false), ("Dysponea", false), ("Bronchitis", false)} then 1
  else 0

def phi_CoughBronchitisEitherTL_fn : Finset (String × Bool) → ℚ := fun ss =>
  if ss = {("Cough", true), ("EitherTL", true), ("Bronchitis", true)} then 5
  else if ss = {("Cough", true), ("EitherTL", false), ("Bronchitis", true)} then 2
  else if ss = {("Cough", false), ("EitherTL", true), ("Bronchitis", true)} then 1
  else if ss = {("Cough", false), ("EitherTL", false), ("Bronchitis", true)} then 1
  else if ss = {("Cough", true), ("EitherTL", true), ("Bronchitis", false)} then 3
  else if ss = {("Cough", true), ("EitherTL", false), ("Bronchitis", false)} then 1
  else if ss = {("Cough", false), ("EitherTL", true), ("Bronchitis", false)} then 1
  else if ss = {("Cough", false), ("EitherTL", false), ("Bronchitis", false)} then 1
  else 0

def phi_BronchitisEitherTL_fn : Finset (String × Bool) → ℚ := fun ss =>
  if ss = {("Bronchitis", true), ("EitherTL", true)} then 1 / 90
  else if ss = {("Bronchitis", false), ("EitherTL", true)} then 1 / 11
  else if ss = {("Bronchitis", true), ("EitherTL", false)} then 1 / 39
  else if ss = {("Bronchitis", false), ("EitherTL", false)} then 1 / 5
  else 0

def VisitAsia_cf : Factor Bool :=
  { gid := "VisitAsia_cf", scope := [VisitAsia], fn := phi_VisitAsia_fn }

def VisitAsiaTuberculosis_cf : Factor Bool :=
  { gid := "VisitAsiaTuberculosis_cf", scope := [VisitAsia, Tuberculosis]
    fn := phi_TuberculosisVisitAsia_fn }

def EitherTLXray_cf : Factor Bool :=
  { gid := "EitherTLXray_cf", scope := [EitherTL, Xray], fn := phi_EitherTLXray_fn }

def Smoking_cf : Factor Bool :=
  { gid := "Smoking_cf", scope := [Smoking], fn := phi_Smoking_fn }

def SmokingBronchitis_cf : Factor Bool :=
  { gid := "SmokingBronchitis_cf", scope := [Smoking, Bronchitis]
    fn := phi_SmokingBronchitis_fn }

def SmokingLungCancer_cf : Factor Bool :=
  { gid := "SmokingLungCancer_cf", scope := [Smoking, LungCancer]
    fn := phi_SmokingLungCancer_fn }

def LungCancerEitherTLTuberculosis_cf : Factor Bool :=
  { gid := "LungCancerEitherTLTuberculosis_cf", scope := [EitherTL, LungCancer, Tuberculosis]
    fn := phi_LungCancerEitherTLTuberculosis_fn }

def DysponeaCoughBronchitis_cf : Factor Bool :=
  { gid := "IHBronchitis_cf", scope := [Cough, Dysponea, Bronchitis]
    fn := phi_DysponeaCoughBronchitis_fn }

def CoughBronchitisEitherTL_cf : Factor Bool :=
  { gid := "CoughBronchitisEitherTL_cf", scope := [Cough, EitherTL, Bronchitis]
    fn := phi_CoughBronchitisEitherTL_fn }

def BronchitisEitherTL_cf : Factor Bool :=
  { gid := "BronchitisEitherTL_cf", scope := [EitherTL, Bronchitis]
    fn := phi_BronchitisEitherTL_fn }

def cowell : PGModel Bool :=
  { gid := "cowell"
    nodes := [Smoking, Bronchitis, LungCancer, EitherTL, VisitAsia,
              Tuberculosis, Xray, Cough, Dysponea]
    edges := [SmokingBronchitis_c, SmokingLungCancer_c, LungCancerEitherTL_c,
              VisitAsiaTuberculosis_c, TuberculosisEitherTL_c, EitherTLXray_c,
              EitherTLCough_c, BronchitisCough_c, BronchitisDysponea_c,
              CoughDysponea_c]
    factors := [VisitAsia_cf, VisitAsiaTuberculosis_cf, EitherTLXray_cf,
                Smoking_cf, SmokingBronchitis_cf, SmokingLungCancer_cf,
                LungCancerEitherTLTuberculosis_cf, DysponeaCoughBronchitis_cf,
                CoughBronchitisEitherTL_cf, BronchitisEitherTL_cf] }

def queryResult : Factor Bool × ℚ :=
  cond_prod_by_variable_elimination cowell [Bronchitis]
    [("VisitAsia", true), ("Smoking", true), ("Xray", false)]

end CowellEx

/-! ### List helper lemmas -/

section ListLemmas

variable {β γ : Type}

theorem sum_map_add (l : List β) (f g : β → ℚ) :
    (l.map (fun x => f x + g x)).sum = (l.map f).sum + (l.map g).sum := by
  induction l with
  | nil => simp
  | cons a l ih => simp [ih]; ring

theorem sum_map_mul_right (l : List β) (f : β → ℚ) (c : ℚ) :
    (l.map (fun x => f x * c)).sum = (l.map f).sum * c := by
  induction l with
  | nil => simp
  | cons a l ih => simp [ih]; ring

theorem sum_map_exchange (l1 : List β) (l2 : List γ) (F : β → γ → ℚ) :
    (l1.map (fun a => (l2.map (F a)).sum)).sum =
      (l2.map (fun b => (l1.map (fun a => F a b)).sum)).sum := by
  induction l1 with
  | nil => simp [List.sum_eq_zero]
  | cons a l1 ih =>
      simp only [List.map_cons, List.sum_cons, ih, ← sum_map_add]

end ListLemmas

/-! ### Semantic lemmas about the factor algebra -/

section Semantics

variable {α : Type} [DecidableEq α]

theorem mem_scopeIds {sc : List (NumCatRVariable α)} {x : String} :
    x ∈ scopeIds sc ↔ ∃ v ∈ sc, v.node_id = x := by
  simp [scopeIds]

theorem mem_assignmentOf {sc : List (NumCatRVariable α)} {σ : String → α}
    {i : String} {x : α} :
    (i, x) ∈ assignmentOf sc σ ↔ i ∈ scopeIds sc ∧ x = σ i := by
  simp only [assignmentOf, List.mem_toFinset, List.mem_map]
  constructor
  · rintro ⟨v, hv, h⟩
    obtain ⟨h1, h2⟩ := Prod.mk.injEq .. ▸ h
    subst h1
    exact ⟨mem_scopeIds.mpr ⟨v, hv, rfl⟩, h2.symm⟩
  · rintro ⟨hi, hx⟩
    obtain ⟨v, hv, hvx⟩ := mem_scopeIds.mp hi
    exact ⟨v, hv, by rw [hvx, hx]⟩

theorem restrict_assignmentOf {sc sc2 : List (NumCatRVariable α)} {σ : String → α}
    (h : ∀ x, x ∈ scopeIds sc2 → x ∈ scopeIds sc) :
    restrict (scopeIds sc2) (assignmentOf sc σ) = assignmentOf sc2 σ := by
  ext ⟨i, x⟩
  simp only [restrict, Finset.mem_filter, mem_assignmentOf]
  constructor
  · rintro ⟨⟨_, hx⟩, hi⟩
    exact ⟨hi, hx⟩
  · rintro ⟨hi, hx⟩
    exact ⟨⟨h i hi, hx⟩, hi⟩

theorem mem_scopeIds_product {f1 f2 : Factor α} {x : String} :
    x ∈ scopeIds (FactorOps.product f1 f2).scope ↔
      x ∈ scopeIds f1.scope ∨ x ∈ scopeIds f2.scope := by
  simp only [FactorOps.product, scopeIds, List.map_append, List.mem_append,
    List.mem_map, List.mem_filter, decide_eq_true_eq]
  constructor
  · rintro (⟨v, hv, rfl⟩ | ⟨v, ⟨hv, _⟩, rfl⟩)
    · exact Or.inl ⟨v, hv, rfl⟩
    · exact Or.inr ⟨v, hv, rfl⟩
  · rintro (⟨v, hv, rfl⟩ | ⟨v, hv, rfl⟩)
    · exact Or.inl ⟨v, hv, rfl⟩
    · by_cases hmem : v.node_id ∈ scopeIds f1.scope
      · obtain ⟨w, hw, hwx⟩ := mem_scopeIds.mp hmem
        exact Or.inl ⟨w, hw, hwx⟩
      · exact Or.inr ⟨v, ⟨hv, by simpa [scopeIds] using hmem⟩, rfl⟩

theorem evalAt_product (f1 f2 : Factor α) (σ : String → α) :
    evalAt (FactorOps.product f1 f2) σ = evalAt f1 σ * evalAt f2 σ := by
  show (FactorOps.product f1 f2).fn _ = _
  have h1 : ∀ x, x ∈ scopeIds f1.scope →
      x ∈ scopeIds (FactorOps.product f1 f2).scope :=
    fun x hx => mem_scopeIds_product.mpr (Or.inl hx)
  have h2 : ∀ x, x ∈ scopeIds f2.scope →
      x ∈ scopeIds (FactorOps.product f1 f2).scope :=
    fun x hx => mem_scopeIds_product.mpr (Or.inr hx)
  show f1.fn (restrict (scopeIds f1.scope) (assignmentOf (FactorOps.product f1 f2).scope σ)) *
      f2.fn (restrict (scopeIds f2.scope) (assignmentOf (FactorOps.product f1 f2).scope σ)) = _
  rw [restrict_assignmentOf h1, restrict_assignmentOf h2]
  rfl

theorem evalAt_identityFactor (σ : String → α) :
    evalAt (identityFactor : Factor α) σ = 1 := rfl

theorem evalAt_productList (fs : List (Factor α)) (σ : String → α) :
    evalAt (productList fs) σ = evalProd fs σ := by
  induction fs with
  | nil => rfl
  | cons f rest ih =>
      show evalAt (FactorOps.product f (productList rest)) σ = _
      rw [evalAt_product, ih]
      simp [evalProd]

theorem mem_scopeIds_productList {fs : List (Factor α)} {x : String} :
    x ∈ scopeIds (productList fs).scope ↔ occursIn x fs := by
  induction fs with
  | nil => simp [productList, identityFactor, scopeIds, occursIn]
  | cons f rest ih =>
      show x ∈ scopeIds (FactorOps.product f (productList rest)).scope ↔ _
      rw [mem_scopeIds_product, ih]
      simp [occursIn]

theorem mem_scopeIds_filter_ne {sc : List (NumCatRVariable α)} {y x : String} :
    x ∈ scopeIds (sc.filter (fun w => decide (w.node_id ≠ y))) ↔
      x ∈ scopeIds sc ∧ x ≠ y := by
  simp only [scopeIds, List.mem_map, List.mem_filter, decide_eq_true_eq]
  constructor
  · rintro ⟨v, ⟨hv, hne⟩, rfl⟩
    exact ⟨⟨v, hv, rfl⟩, hne⟩
  · rintro ⟨⟨v, hv, rfl⟩, hne⟩
    exact ⟨v, ⟨hv, hne⟩, rfl⟩

theorem assignmentOf_filter_insert (f : Factor α) (v : NumCatRVariable α)
    (σ : String → α) (val : α) (hv : v.node_id ∈ scopeIds f.scope) :
    insert (v.node_id, val)
        (assignmentOf (f.scope.filter (fun w => decide (w.node_id ≠ v.node_id))) σ) =
      assignmentOf f.scope (upd σ v.node_id val) := by
  ext ⟨i, x⟩
  simp only [Finset.mem_insert, mem_assignmentOf, mem_scopeIds_filter_ne,
    Prod.mk.injEq, upd]
  by_cases hi : i = v.node_id
  · subst hi
    simp [hv]
  · simp [hi]

theorem evalAt_marginalize_out (f : Factor α) (v : NumCatRVariable α)
    (σ : String → α) (hv : v.node_id ∈ scopeIds f.scope) :
    evalAt (FactorOps.marginalize_out f v) σ =
      (v.outcome_values.map (fun val => evalAt f (upd σ v.node_id val))).sum := by
  unfold evalAt FactorOps.marginalize_out
  simp only
  apply congrArg
  apply List.map_congr_left
  intro val _
  rw [assignmentOf_filter_insert f v σ val hv]

theorem evalAt_upd_not_mem (f : Factor α) (σ : String → α) {x : String} (val : α)
    (hx : x ∉ scopeIds f.scope) :
    evalAt f (upd σ x val) = evalAt f σ := by
  unfold evalAt assignmentOf
  congr 2
  apply List.map_congr_left
  intro v hv
  have hne : v.node_id ≠ x := fun h => hx (h ▸ mem_scopeIds.mpr ⟨v, hv, rfl⟩)
  simp [upd, hne]

theorem evalProd_upd_not_occurs (fs : List (Factor α)) (σ : String → α)
    {x : String} (val : α) (h : ¬ occursIn x fs) :
    evalProd fs (upd σ x val) = evalProd fs σ := by
  unfold evalProd
  congr 1
  apply List.map_congr_left
  intro f hf
  exact evalAt_upd_not_mem f σ val (fun hmem => h ⟨f, hf, hmem⟩)

theorem evalProd_filter_partition (fs : List (Factor α)) (p : Factor α → Bool)
    (σ : String → α) :
    evalProd fs σ =
      evalProd (fs.filter p) σ * evalProd (fs.filter (fun f => !(p f))) σ := by
  induction fs with
  | nil => simp [evalProd]
  | cons f rest ih =>
      by_cases h : p f = true <;>
        simp [List.filter_cons, h, evalProd, List.prod_cons] at ih ⊢ <;>
        rw [ih] <;> ring

theorem evalProd_eliminate (fs : List (Factor α)) (v : NumCatRVariable α)
    (σ : String → α) :
    evalProd (eliminate fs v) σ =
      if occursIn v.node_id fs then
        (v.outcome_values.map (fun val => evalProd fs (upd σ v.node_id val))).sum
      else evalProd fs σ := by
  by_cases h : occursIn v.node_id fs
  · obtain ⟨f0, hf0, hmem0⟩ := h
    have hf0rel : f0 ∈ fs.filter (fun f => decide (v.node_id ∈ scopeIds f.scope)) :=
      List.mem_filter.mpr ⟨hf0, by simpa using hmem0⟩
    have hrel : (fs.filter (fun f => decide (v.node_id ∈ scopeIds f.scope))).isEmpty = false := by
      rcases heq : fs.filter (fun f => decide (v.node_id ∈ scopeIds f.scope)) with _ | _
      · rw [heq] at hf0rel; cases hf0rel
      · rw [heq]; rfl
    rw [if_pos ⟨f0, hf0, hmem0⟩]
    show evalProd (if _ then _ else _) σ = _
    rw [hrel]
    simp only [Bool.false_eq_true, if_false]
    have hvprod : v.node_id ∈
        scopeIds (productList (fs.filter (fun f => decide (v.node_id ∈ scopeIds f.scope)))).scope :=
      mem_scopeIds_productList.mpr ⟨f0, hf0rel, hmem0⟩
    calc evalProd (FactorOps.marginalize_out
            (productList (fs.filter (fun f => decide (v.node_id ∈ scopeIds f.scope)))) v ::
            fs.filter (fun f => !(decide (v.node_id ∈ scopeIds f.scope)))) σ
        = evalAt (FactorOps.marginalize_out
            (productList (fs.filter (fun f => decide (v.node_id ∈ scopeIds f.scope)))) v) σ *
            evalProd (fs.filter (fun f => !(decide (v.node_id ∈ scopeIds f.scope)))) σ := by
          simp [evalProd]
      _ = (v.outcome_values.map (fun val =>
            evalProd (fs.filter (fun f => decide (v.node_id ∈ scopeIds f.scope)))
              (upd σ v.node_id val))).sum *
            evalProd (fs.filter (fun f => !(decide (v.node_id ∈ scopeIds f.scope)))) σ := by
          rw [evalAt_marginalize_out _ _ _ hvprod]
          rw [show (v.outcome_values.map (fun val =>
              evalAt (productList (fs.filter (fun f => decide (v.node_id ∈ scopeIds f.scope))))
                (upd σ v.node_id val))) =
            (v.outcome_values.map (fun val =>
              evalProd (fs.filter (fun f => decide (v.node_id ∈ scopeIds f.scope)))
                (upd σ v.node_id val))) from
            List.map_congr_left (fun val _ => evalAt_productList _ _)]
      _ = (v.outcome_values.map (fun val =>
            evalProd (fs.filter (fun f => decide (v.node_id ∈ scopeIds f.scope)))
              (upd σ v.node_id val) *
            evalProd (fs.filter (fun f => !(decide (v.node_id ∈ scopeIds f.scope))))
              (upd σ v.node_id val))).sum := by
          rw [← sum_map_mul_right]
          apply congrArg
          apply List.map_congr_left
          intro val _
          congr 1
          apply (evalProd_upd_not_occurs _ _ _ _).symm
          rintro ⟨f, hf, hmem⟩
          have := (List.mem_filter.mp hf).2
          simp at this
          exact this hmem
      _ = (v.outcome_values.map (fun val => evalProd fs (upd σ v.node_id val))).sum := by
          apply congrArg
          apply List.map_congr_left
          intro val _
          exact (evalProd_filter_partition fs _ _).symm
  · rw [if_neg h]
    have hrel : fs.filter (fun f => decide (v.node_id ∈ scopeIds f.scope)) = [] := by
      apply List.filter_eq_nil_iff.mpr
      intro f hf
      simp only [decide_eq_true_eq]
      exact fun hmem => h ⟨f, hf, hmem⟩
    have hrest : fs.filter (fun f => !(decide (v.node_id ∈ scopeIds f.scope))) = fs := by
      apply List.filter_eq_self.mpr
      intro f hf
      simp only [Bool.not_eq_true', decide_eq_false_iff_not]
      exact fun hmem => h ⟨f, hf, hmem⟩
    show evalProd (if _ then _ else _) σ = _
    rw [hrel]
    simp only [List.isEmpty_nil, if_true]
    rw [hrest]

theorem upd_comm (σ : String → α) {i j : String} (a b : α) (h : i ≠ j) :
    upd (upd σ i a) j b = upd (upd σ j b) i a := by
  funext k
  unfold upd
  by_cases hkj : k = j
  · subst hkj
    simp [Ne.symm h]
  · by_cases hki : k = i <;> simp [hkj, hki, h]

theorem mem_scopeIds_marginalize_out {f : Factor α} {v : NumCatRVariable α}
    {x : String} :
    x ∈ scopeIds (FactorOps.marginalize_out f v).scope ↔
      x ∈ scopeIds f.scope ∧ x ≠ v.node_id := by
  simp only [FactorOps.marginalize_out]
  exact mem_scopeIds_filter_ne

theorem eliminate_of_occurs {fs : List (Factor α)} {v : NumCatRVariable α}
    (h : occursIn v.node_id fs) :
    eliminate fs v =
      FactorOps.marginalize_out
          (productList (fs.filter (fun f => decide (v.node_id ∈ scopeIds f.scope)))) v ::
        fs.filter (fun f => !(decide (v.node_id ∈ scopeIds f.scope))) := by
  obtain ⟨f0, hf0, hmem0⟩ := h
  have hf0rel : f0 ∈ fs.filter (fun f => decide (v.node_id ∈ scopeIds f.scope)) :=
    List.mem_filter.mpr ⟨hf0, by simpa using hmem0⟩
  unfold eliminate
  rcases heq : fs.filter (fun f => decide (v.node_id ∈ scopeIds f.scope)) with _ | ⟨g, l⟩
  · rw [heq] at hf0rel; cases hf0rel
  · simp [heq]

theorem eliminate_of_not_occurs {fs : List (Factor α)} {v : NumCatRVariable α}
    (h : ¬ occursIn v.node_id fs) :
    eliminate fs v = fs := by
  have hrel : fs.filter (fun f => decide (v.node_id ∈ scopeIds f.scope)) = [] := by
    apply List.filter_eq_nil_iff.mpr
    intro f hf
    simp only [decide_eq_true_eq]
    exact fun hmem => h ⟨f, hf, hmem⟩
  have hrest : fs.filter (fun f => !(decide (v.node_id ∈ scopeIds f.scope))) = fs := by
    apply List.filter_eq_self.mpr
    intro f hf
    simp only [Bool.not_eq_true', decide_eq_false_iff_not]
    exact fun hmem => h ⟨f, hf, hmem⟩
  unfold eliminate
  rw [hrel, hrest]
  rfl

theorem occursIn_cons {f : Factor α} {l : List (Factor α)} {x : String} :
    occursIn x (f :: l) ↔ x ∈ scopeIds f.scope ∨ occursIn x l := by
  simp [occursIn]

theorem occursIn_eliminate {fs : List (Factor α)} {v : NumCatRVariable α}
    {x : String} :
    occursIn x (eliminate fs v) ↔ occursIn x fs ∧ x ≠ v.node_id := by
  by_cases h : occursIn v.node_id fs
  · rw [eliminate_of_occurs h, occursIn_cons, mem_scopeIds_marginalize_out,
      mem_scopeIds_productList]
    constructor
    · rintro (⟨⟨f, hf, hmem⟩, hne⟩ | ⟨f, hf, hmem⟩)
      · exact ⟨⟨f, (List.mem_filter.mp hf).1, hmem⟩, hne⟩
      · have hnotv : ¬ v.node_id ∈ scopeIds f.scope := by
          simpa using (List.mem_filter.mp hf).2
        exact ⟨⟨f, (List.mem_filter.mp hf).1, hmem⟩, fun hx => hnotv (hx ▸ hmem)⟩
    · rintro ⟨⟨f, hf, hmem⟩, hne⟩
      by_cases hp : v.node_id ∈ scopeIds f.scope
      · exact Or.inl ⟨⟨f, List.mem_filter.mpr ⟨hf, by simpa using hp⟩, hmem⟩, hne⟩
      · exact Or.inr ⟨f, List.mem_filter.mpr ⟨hf, by simpa using hp⟩, hmem⟩
  · rw [eliminate_of_not_occurs h]
    constructor
    · intro hx
      refine ⟨hx, ?_⟩
      intro heq
      subst heq
      exact h hx
    · exact fun hx => hx.1

theorem occursIn_foldl_eliminate (order : List (NumCatRVariable α))
    (fs : List (Factor α)) (x : String) :
    occursIn x (order.foldl eliminate fs) ↔
      occursIn x fs ∧ x ∉ order.map (fun v => v.node_id) := by
  induction order generalizing fs with
  | nil => simp
  | cons v rest ih =>
      simp only [List.foldl_cons, ih, occursIn_eliminate, List.map_cons,
        List.mem_cons]
      tauto

theorem evalProd_foldl_eliminate (order : List (NumCatRVariable α))
    (fs : List (Factor α)) (hnd : (order.map (fun v => v.node_id)).Nodup)
    (σ : String → α) :
    evalProd (order.foldl eliminate fs) σ =
      sumOver (order.filter (fun v => decide (occursIn v.node_id fs)))
        (fun τ => evalProd fs τ) σ := by
  induction order generalizing fs σ with
  | nil => rfl
  | cons v rest ih =>
      have hndc := List.nodup_cons.mp (show (v.node_id :: rest.map
        (fun v => v.node_id)).Nodup from hnd)
      have hvne : ∀ w ∈ rest, w.node_id ≠ v.node_id := by
        intro w hw heq
        exact hndc.1 (heq ▸ List.mem_map_of_mem _ hw)
      rw [List.foldl_cons, ih _ hndc.2]
      rw [List.filter_congr (fun w hw =>
        decide_eq_decide.mpr (occursIn_eliminate.trans (and_iff_left (hvne w hw))))]
      rw [show (fun τ => evalProd (eliminate fs v) τ) = (fun τ =>
          if occursIn v.node_id fs then
            (v.outcome_values.map (fun val => evalProd fs (upd τ v.node_id val))).sum
          else evalProd fs τ) from funext (fun τ => evalProd_eliminate fs v τ)]
      by_cases h : occursIn v.node_id fs
      · simp only [h, if_true]
        rw [show (v :: rest).filter (fun w => decide (occursIn w.node_id fs)) =
            v :: rest.filter (fun w => decide (occursIn w.node_id fs)) from by
          rw [List.filter_cons]
          simp [h]]
        rfl
      · simp only [h, if_false]
        rw [show (v :: rest).filter (fun w => decide (occursIn w.node_id fs)) =
            rest.filter (fun w => decide (occursIn w.node_id fs)) from by
          rw [List.filter_cons]
          simp [h]]

theorem sumOver_perm {l1 l2 : List (NumCatRVariable α)} (hp : l1.Perm l2) :
    (l1.map (fun v => v.node_id)).Nodup →
    ∀ (g : (String → α) → ℚ) (σ : String → α), sumOver l1 g σ = sumOver l2 g σ := by
  induction hp with
  | nil => intro _ g σ; rfl
  | cons x hp ih =>
      intro hnd g σ
      exact ih (List.nodup_cons.mp (by simpa using hnd)).2 _ σ
  | swap x y l =>
      intro hnd g σ
      have hnd2 : (y.node_id :: x.node_id :: l.map (fun v => v.node_id)).Nodup := by
        simpa using hnd
      have hxy : x.node_id ≠ y.node_id := fun heq =>
        (List.nodup_cons.mp hnd2).1 (by rw [← heq]; exact List.mem_cons_self _ _)
      exact congrArg (fun G => sumOver l G σ) (funext (fun τ => by
        calc (x.outcome_values.map (fun a => (y.outcome_values.map (fun b =>
                g (upd (upd τ x.node_id a) y.node_id b))).sum)).sum
            = (y.outcome_values.map (fun b => (x.outcome_values.map (fun a =>
                g (upd (upd τ x.node_id a) y.node_id b))).sum)).sum :=
              sum_map_exchange _ _ _
          _ = (y.outcome_values.map (fun b => (x.outcome_values.map (fun a =>
                g (upd (upd τ y.node_id b) x.node_id a))).sum)).sum := by
              apply congrArg
              apply List.map_congr_left
              intro b _
              apply congrArg
              apply List.map_congr_left
              intro a _
              rw [upd_comm τ a b hxy]))
  | trans h1 h2 ih1 ih2 =>
      intro hnd g σ
      exact (ih1 hnd g σ).trans
        (ih2 ((h1.map (fun v => v.node_id)).nodup_iff.mp hnd) g σ)

theorem sum_map_flatMap {β γ : Type} (l : List β) (f : β → List γ) (g : γ → ℚ) :
    ((l.flatMap f).map g).sum = (l.map (fun x => ((f x).map g).sum)).sum := by
  induction l with
  | nil => rfl
  | cons a l ih => simp [List.flatMap_cons, List.map_append, List.sum_append, ih]

theorem sumOver_sum {β : Type} (sc : List (NumCatRVariable α)) (l : List β)
    (H : β → (String → α) → ℚ) (σ0 : String → α) :
    sumOver sc (fun τ => (l.map (fun x => H x τ)).sum) σ0 =
      (l.map (fun x => sumOver sc (H x) σ0)).sum := by
  induction sc generalizing H with
  | nil => rfl
  | cons v rest ih =>
      show sumOver rest (fun τ => (v.outcome_values.map (fun val =>
          (l.map (fun x => H x (upd τ v.node_id val))).sum)).sum) σ0 = _
      rw [show (fun τ => (v.outcome_values.map (fun val =>
            (l.map (fun x => H x (upd τ v.node_id val))).sum)).sum) =
          (fun τ => (l.map (fun x => (v.outcome_values.map (fun val =>
            H x (upd τ v.node_id val))).sum)).sum) from
        funext (fun τ => sum_map_exchange _ _ _)]
      exact ih (fun x τ => (v.outcome_values.map (fun val =>
        H x (upd τ v.node_id val))).sum)

theorem assignmentOf_cons_upd (v : NumCatRVariable α)
    (rest : List (NumCatRVariable α)) (τ : String → α) (val : α)
    (hv : v.node_id ∉ scopeIds rest) :
    assignmentOf (v :: rest) (upd τ v.node_id val) =
      insert (v.node_id, val) (assignmentOf rest τ) := by
  ext ⟨i, x⟩
  simp only [mem_assignmentOf, Finset.mem_insert, Prod.mk.injEq,
    show scopeIds (v :: rest) = v.node_id :: scopeIds rest from rfl,
    List.mem_cons, upd]
  by_cases hi : i = v.node_id
  · subst hi
    simp [hv]
  · simp [hi]

theorem sum_scope_product (sc : List (NumCatRVariable α))
    (hnd : (scopeIds sc).Nodup) (g : Finset (String × α) → ℚ) (σ0 : String → α) :
    ((FactorOps.scope_product sc).map g).sum =
      sumOver sc (fun σ => g (assignmentOf sc σ)) σ0 := by
  induction sc generalizing g with
  | nil => simp [FactorOps.scope_product, assignmentOf, sumOver]
  | cons v rest ih =>
      have hndc := List.nodup_cons.mp
        (show (v.node_id :: scopeIds rest).Nodup from hnd)
      calc ((FactorOps.scope_product (v :: rest)).map g).sum
          = (v.outcome_values.map (fun val =>
              (((FactorOps.scope_product rest).map
                (fun S => insert (v.node_id, val) S)).map g).sum)).sum := by
            show ((v.outcome_values.flatMap _).map g).sum = _
            rw [sum_map_flatMap]
        _ = (v.outcome_values.map (fun val =>
              ((FactorOps.scope_product rest).map
                (fun S => g (insert (v.node_id, val) S))).sum)).sum := by
            apply congrArg
            apply List.map_congr_left
            intro val _
            rw [List.map_map]
            rfl
        _ = (v.outcome_values.map (fun val =>
              sumOver rest (fun τ =>
                g (insert (v.node_id, val) (assignmentOf rest τ))) σ0)).sum := by
            apply congrArg
            apply List.map_congr_left
            intro val _
            exact ih hndc.2 (fun S => g (insert (v.node_id, val) S))
        _ = sumOver rest (fun τ => (v.outcome_values.map (fun val =>
              g (insert (v.node_id, val) (assignmentOf rest τ)))).sum) σ0 :=
            (sumOver_sum rest v.outcome_values
              (fun val τ => g (insert (v.node_id, val) (assignmentOf rest τ))) σ0).symm
        _ = sumOver (v :: rest) (fun σ => g (assignmentOf (v :: rest) σ)) σ0 := by
            show _ = sumOver rest (fun τ => (v.outcome_values.map (fun val =>
              g (assignmentOf (v :: rest) (upd τ v.node_id val)))).sum) σ0
            apply congrArg (fun G => sumOver rest G σ0)
            funext τ
            apply congrArg
            apply List.map_congr_left
            intro val _
            rw [assignmentOf_cons_upd v rest τ val hndc.1]

/-! Preservation of well-formedness (no duplicate ids inside one scope) and
variable provenance (intermediate scope variables come from the input
factors) through the engine. -/

theorem scopeIds_nodup_filter_ne {sc : List (NumCatRVariable α)} {y : String}
    (h : (scopeIds sc).Nodup) :
    (scopeIds (sc.filter (fun w => decide (w.node_id ≠ y)))).Nodup :=
  h.sublist (List.Sublist.map _ (List.filter_sublist sc))

theorem scopeIds_nodup_product {f1 f2 : Factor α}
    (h1 : (scopeIds f1.scope).Nodup) (h2 : (scopeIds f2.scope).Nodup) :
    (scopeIds (FactorOps.product f1 f2).scope).Nodup := by
  show ((f1.scope ++ f2.scope.filter _).map _).Nodup
  rw [List.map_append]
  refine List.Nodup.append h1 ?_ ?_
  · exact h2.sublist (List.Sublist.map _ (List.filter_sublist f2.scope))
  · intro x hx1 hx2
    obtain ⟨v, hv, rfl⟩ := List.mem_map.mp hx2
    have := (List.mem_filter.mp hv).2
    simp only [decide_eq_true_eq] at this
    exact this hx1

theorem scopeIds_nodup_productList {fs : List (Factor α)}
    (h : ∀ f ∈ fs, (scopeIds f.scope).Nodup) :
    (scopeIds (productList fs).scope).Nodup := by
  induction fs with
  | nil => exact List.nodup_nil
  | cons f rest ih =>
      exact scopeIds_nodup_product (h f (List.mem_cons_self _ _))
        (ih (fun g hg => h g (List.mem_cons_of_mem _ hg)))

theorem scopeIds_nodup_marginalize_out {f : Factor α} {v : NumCatRVariable α}
    (h : (scopeIds f.scope).Nodup) :
    (scopeIds (FactorOps.marginalize_out f v).scope).Nodup :=
  scopeIds_nodup_filter_ne h

theorem scopeIds_nodup_reduce {f : Factor α} {ev : String × α}
    (h : (scopeIds f.scope).Nodup) :
    (scopeIds (FactorOps.reduce f ev).scope).Nodup := by
  unfold FactorOps.reduce
  by_cases hc : ev.1 ∈ scopeIds f.scope
  · rw [if_pos hc]
    exact scopeIds_nodup_filter_ne h
  · rw [if_neg hc]
    exact h

theorem scopeIds_nodup_foldl_reduce (evs : List (String × α)) (f : Factor α)
    (h : (scopeIds f.scope).Nodup) :
    (scopeIds ((evs.foldl FactorOps.reduce f).scope)).Nodup := by
  induction evs generalizing f with
  | nil => exact h
  | cons ev rest ih => exact ih _ (scopeIds_nodup_reduce h)

theorem scopeIds_nodup_eliminate {fs : List (Factor α)} {v : NumCatRVariable α}
    (h : ∀ f ∈ fs, (scopeIds f.scope).Nodup) :
    ∀ g ∈ eliminate fs v, (scopeIds g.scope).Nodup := by
  intro g hg
  by_cases hocc : occursIn v.node_id fs
  · rw [eliminate_of_occurs hocc] at hg
    rcases List.mem_cons.mp hg with rfl | hg2
    · exact scopeIds_nodup_marginalize_out
        (scopeIds_nodup_productList (fun f hf => h f (List.mem_filter.mp hf).1))
    · exact h g (List.mem_filter.mp hg2).1
  · rw [eliminate_of_not_occurs hocc] at hg
    exact h g hg

theorem scopeIds_nodup_foldl_eliminate (order : List (NumCatRVariable α))
    (fs : List (Factor α)) (h : ∀ f ∈ fs, (scopeIds f.scope).Nodup) :
    ∀ g ∈ order.foldl eliminate fs, (scopeIds g.scope).Nodup := by
  induction order generalizing fs with
  | nil => exact h
  | cons v rest ih => exact ih _ (scopeIds_nodup_eliminate h)

theorem mem_scope_product {f1 f2 : Factor α} {v : NumCatRVariable α}
    (h : v ∈ (FactorOps.product f1 f2).scope) : v ∈ f1.scope ∨ v ∈ f2.scope := by
  rcases List.mem_append.mp h with h1 | h2
  · exact Or.inl h1
  · exact Or.inr (List.mem_filter.mp h2).1

theorem mem_scope_productList {fs : List (Factor α)} {v : NumCatRVariable α}
    (h : v ∈ (productList fs).scope) : ∃ f ∈ fs, v ∈ f.scope := by
  induction fs with
  | nil => cases h
  | cons f rest ih =>
      rcases mem_scope_product h with h1 | h2
      · exact ⟨f, List.mem_cons_self _ _, h1⟩
      · obtain ⟨g, hg, hgv⟩ := ih h2
        exact ⟨g, List.mem_cons_of_mem _ hg, hgv⟩

theorem mem_scope_marginalize_out {f : Factor α} {v : NumCatRVariable α}
    {w : NumCatRVariable α} (h : w ∈ (FactorOps.marginalize_out f v).scope) :
    w ∈ f.scope := (List.mem_filter.mp h).1

theorem mem_scope_eliminate {fs : List (Factor α)} {v : NumCatRVariable α}
    {g : Factor α} (hg : g ∈ eliminate fs v) {w : NumCatRVariable α}
    (hw : w ∈ g.scope) : ∃ f ∈ fs, w ∈ f.scope := by
  by_cases hocc : occursIn v.node_id fs
  · rw [eliminate_of_occurs hocc] at hg
    rcases List.mem_cons.mp hg with rfl | hg2
    · obtain ⟨f, hf, hfw⟩ := mem_scope_productList (mem_scope_marginalize_out hw)
      exact ⟨f, (List.mem_filter.mp hf).1, hfw⟩
    · exact ⟨g, (List.mem_filter.mp hg2).1, hw⟩
  · rw [eliminate_of_not_occurs hocc] at hg
    exact ⟨g, hg, hw⟩

theorem mem_scope_foldl_eliminate (order : List (NumCatRVariable α))
    (fs : List (Factor α)) {g : Factor α} (hg : g ∈ order.foldl eliminate fs)
    {w : NumCatRVariable α} (hw : w ∈ g.scope) : ∃ f ∈ fs, w ∈ f.scope := by
  induction order generalizing fs with
  | nil => exact ⟨g, hg, hw⟩
  | cons v rest ih =>
      obtain ⟨f, hf, hfw⟩ := ih _ hg
      exact mem_scope_eliminate hf hfw

theorem mem_scope_reduce {f : Factor α} {ev : String × α}
    {w : NumCatRVariable α} (h : w ∈ (FactorOps.reduce f ev).scope) :
    w ∈ f.scope := by
  unfold FactorOps.reduce at h
  by_cases hc : ev.1 ∈ scopeIds f.scope
  · rw [if_pos hc] at h
    exact (List.mem_filter.mp h).1
  · rw [if_neg hc] at h
    exact h

theorem mem_scope_foldl_reduce (evs : List (String × α)) (f : Factor α)
    {w : NumCatRVariable α} (h : w ∈ (evs.foldl FactorOps.reduce f).scope) :
    w ∈ f.scope := by
  induction evs generalizing f with
  | nil => exact h
  | cons ev rest ih => exact mem_scope_reduce (ih _ h)

/-! Assembly: order invariance of the elimination engine. -/

theorem sum_product_ve_fst (factors : List (Factor α))
    (evidences : List (String × α)) (order : List (NumCatRVariable α)) :
    (sum_product_ve factors evidences order).1 =
      veResultant factors evidences order := rfl

theorem sum_product_ve_snd (factors : List (Factor α))
    (evidences : List (String × α)) (order : List (NumCatRVariable α)) :
    (sum_product_ve factors evidences order).2 =
      FactorOps.sumPhi (veResultant factors evidences order) := rfl

theorem evalAt_veResultant_eq_of_perm (factors : List (Factor α))
    (evidences : List (String × α)) (o1 o2 : List (NumCatRVariable α))
    (hperm : o1.Perm o2) (hnd : (o1.map (fun v => v.node_id)).Nodup)
    (σ : String → α) :
    evalAt (veResultant factors evidences o1) σ =
      evalAt (veResultant factors evidences o2) σ := by
  have hnd2 : (o2.map (fun v => v.node_id)).Nodup :=
    (hperm.map (fun v => v.node_id)).nodup_iff.mp hnd
  unfold veResultant
  rw [evalAt_productList, evalAt_productList,
    evalProd_foldl_eliminate _ _ hnd σ, evalProd_foldl_eliminate _ _ hnd2 σ]
  apply sumOver_perm (hperm.filter _)
  exact hnd.sublist (List.Sublist.map _ (List.filter_sublist o1))

theorem scope_veResultant_perm [Inhabited α] (factors : List (Factor α))
    (evidences : List (String × α)) (o1 o2 : List (NumCatRVariable α))
    (hperm : o1.Perm o2)
    (hsc : ∀ f ∈ factors, (scopeIds f.scope).Nodup)
    (hcons : ∀ f ∈ factors, ∀ g ∈ factors, ∀ v ∈ f.scope, ∀ w ∈ g.scope,
      v.node_id = w.node_id → v = w) :
    (veResultant factors evidences o1).scope.Perm
      (veResultant factors evidences o2).scope := by
  have hscR : ∀ f ∈ factors.map (fun f => evidences.foldl FactorOps.reduce f),
      (scopeIds f.scope).Nodup := by
    intro f hf
    obtain ⟨f0, hf0, rfl⟩ := List.mem_map.mp hf
    exact scopeIds_nodup_foldl_reduce _ _ (hsc f0 hf0)
  have hres1 : (scopeIds (veResultant factors evidences o1).scope).Nodup :=
    scopeIds_nodup_productList (scopeIds_nodup_foldl_eliminate _ _ hscR)
  have hres2 : (scopeIds (veResultant factors evidences o2).scope).Nodup :=
    scopeIds_nodup_productList (scopeIds_nodup_foldl_eliminate _ _ hscR)
  have hprov : ∀ (o : List (NumCatRVariable α)) (w : NumCatRVariable α),
      w ∈ (veResultant factors evidences o).scope → ∃ f0 ∈ factors, w ∈ f0.scope := by
    intro o w hw
    obtain ⟨g, hg, hgw⟩ := mem_scope_productList hw
    obtain ⟨f, hf, hfw⟩ := mem_scope_foldl_eliminate _ _ hg hgw
    obtain ⟨f0, hf0, rfl⟩ := List.mem_map.mp hf
    exact ⟨f0, hf0, mem_scope_foldl_reduce _ _ hfw⟩
  have hmemIff : ∀ x, x ∈ scopeIds (veResultant factors evidences o1).scope ↔
      x ∈ scopeIds (veResultant factors evidences o2).scope := by
    intro x
    unfold veResultant
    rw [mem_scopeIds_productList, mem_scopeIds_productList,
      occursIn_foldl_eliminate, occursIn_foldl_eliminate]
    have hm : x ∈ o1.map (fun v => v.node_id) ↔ x ∈ o2.map (fun v => v.node_id) :=
      (hperm.map (fun v => v.node_id)).mem_iff
    tauto
  have hvar : ∀ w, w ∈ (veResultant factors evidences o1).scope ↔
      w ∈ (veResultant factors evidences o2).scope := by
    have key : ∀ (oa ob : List (NumCatRVariable α)),
        (∀ x, x ∈ scopeIds (veResultant factors evidences oa).scope →
          x ∈ scopeIds (veResultant factors evidences ob).scope) →
        ∀ w, w ∈ (veResultant factors evidences oa).scope →
          w ∈ (veResultant factors evidences ob).scope := by
      intro oa ob hids w hw
      have hid : w.node_id ∈ scopeIds (veResultant factors evidences ob).scope :=
        hids w.node_id (mem_scopeIds.mpr ⟨w, hw, rfl⟩)
      obtain ⟨u, hu, hueq⟩ := mem_scopeIds.mp hid
      obtain ⟨f0, hf0, hwf0⟩ := hprov oa w hw
      obtain ⟨g0, hg0, hug0⟩ := hprov ob u hu
      have : u = w := hcons g0 hg0 f0 hf0 u hug0 w hwf0 hueq
      rwa [← this]
    intro w
    exact ⟨key o1 o2 (fun x => (hmemIff x).mp) w,
      key o2 o1 (fun x => (hmemIff x).mpr) w⟩
  exact (List.perm_ext_iff_of_nodup (hres1.of_map) (hres2.of_map)).mpr hvar

theorem sumPhi_veResultant_eq_of_perm [Inhabited α] (factors : List (Factor α))
    (evidences : List (String × α)) (o1 o2 : List (NumCatRVariable α))
    (hperm : o1.Perm o2) (hnd : (o1.map (fun v => v.node_id)).Nodup)
    (hsc : ∀ f ∈ factors, (scopeIds f.scope).Nodup)
    (hcons : ∀ f ∈ factors, ∀ g ∈ factors, ∀ v ∈ f.scope, ∀ w ∈ g.scope,
      v.node_id = w.node_id → v = w) :
    FactorOps.sumPhi (veResultant factors evidences o1) =
      FactorOps.sumPhi (veResultant factors evidences o2) := by
  have hscR : ∀ f ∈ factors.map (fun f => evidences.foldl FactorOps.reduce f),
      (scopeIds f.scope).Nodup := by
    intro f hf
    obtain ⟨f0, hf0, rfl⟩ := List.mem_map.mp hf
    exact scopeIds_nodup_foldl_reduce _ _ (hsc f0 hf0)
  have hres1 : (scopeIds (veResultant factors evidences o1).scope).Nodup :=
    scopeIds_nodup_productList (scopeIds_nodup_foldl_eliminate _ _ hscR)
  have hres2 : (scopeIds (veResultant factors evidences o2).scope).Nodup :=
    scopeIds_nodup_productList (scopeIds_nodup_foldl_eliminate _ _ hscR)
  unfold FactorOps.sumPhi
  rw [sum_scope_product _ hres1 _ (fun _ => default),
    sum_scope_product _ hres2 _ (fun _ => default)]
  calc sumOver (veResultant factors evidences o1).scope
        (evalAt (veResultant factors evidences o1)) (fun _ => default)
      = sumOver (veResultant factors evidences o1).scope
        (evalAt (veResultant factors evidences o2)) (fun _ => default) := by
        apply congrArg (fun G => sumOver _ G _)
        funext σ
        exact evalAt_veResultant_eq_of_perm factors evidences o1 o2 hperm hnd σ
    _ = sumOver (veResultant factors evidences o2).scope
        (evalAt (veResultant factors evidences o2)) (fun _ => default) :=
        sumOver_perm (scope_veResultant_perm factors evidences o1 o2 hperm hsc hcons)
          hres1 _ _

/-! Positivity of the engine on strictly positive factor functions. -/

theorem pos_product {f1 f2 : Factor α} (h1 : ∀ S, 0 < f1.fn S)
    (h2 : ∀ S, 0 < f2.fn S) : ∀ S, 0 < (FactorOps.product f1 f2).fn S :=
  fun _ => mul_pos (h1 _) (h2 _)

theorem pos_productList {fs : List (Factor α)}
    (h : ∀ f ∈ fs, ∀ S, 0 < f.fn S) : ∀ S, 0 < (productList fs).fn S := by
  induction fs with
  | nil => exact fun _ => one_pos
  | cons f rest ih =>
      exact pos_product (h f (List.mem_cons_self _ _))
        (ih (fun g hg => h g (List.mem_cons_of_mem _ hg)))

theorem pos_marginalize_out {f : Factor α} {v : NumCatRVariable α}
    (h : ∀ S, 0 < f.fn S) (hd : v.outcome_values ≠ []) :
    ∀ S, 0 < (FactorOps.marginalize_out f v).fn S := by
  intro S
  apply List.sum_pos
  · intro x hx
    obtain ⟨val, _, rfl⟩ := List.mem_map.mp hx
    exact h _
  · exact fun hmap => hd (List.map_eq_nil_iff.mp hmap)

theorem pos_reduce {f : Factor α} {ev : String × α} (h : ∀ S, 0 < f.fn S) :
    ∀ S, 0 < (FactorOps.reduce f ev).fn S := by
  intro S
  unfold FactorOps.reduce
  by_cases hc : ev.1 ∈ scopeIds f.scope
  · rw [if_pos hc]; exact h _
  · rw [if_neg hc]; exact h _

theorem pos_foldl_reduce (evs : List (String × α)) (f : Factor α)
    (h : ∀ S, 0 < f.fn S) : ∀ S, 0 < ((evs.foldl FactorOps.reduce f).fn S) := by
  induction evs generalizing f with
  | nil => exact h
  | cons ev rest ih => exact ih _ (pos_reduce h)

theorem pos_eliminate {fs : List (Factor α)} {v : NumCatRVariable α}
    (h : ∀ f ∈ fs, ∀ S, 0 < f.fn S) (hd : v.outcome_values ≠ []) :
    ∀ g ∈ eliminate fs v, ∀ S, 0 < g.fn S := by
  intro g hg
  by_cases hocc : occursIn v.node_id fs
  · rw [eliminate_of_occurs hocc] at hg
    rcases List.mem_cons.mp hg with rfl | hg2
    · exact pos_marginalize_out
        (pos_productList (fun f hf => h f (List.mem_filter.mp hf).1)) hd
    · exact h g (List.mem_filter.mp hg2).1
  · rw [eliminate_of_not_occurs hocc] at hg
    exact h g hg

theorem pos_foldl_eliminate (order : List (NumCatRVariable α))
    (fs : List (Factor α)) (h : ∀ f ∈ fs, ∀ S, 0 < f.fn S)
    (hord : ∀ v ∈ order, v.outcome_values ≠ []) :
    ∀ g ∈ order.foldl eliminate fs, ∀ S, 0 < g.fn S := by
  induction order generalizing fs with
  | nil => exact h
  | cons v rest ih =>
      exact ih _ (pos_eliminate h (hord v (List.mem_cons_self _ _)))
        (fun w hw => hord w (List.mem_cons_of_mem _ hw))

theorem scope_product_ne_nil {sc : List (NumCatRVariable α)}
    (h : ∀ v ∈ sc, v.outcome_values ≠ []) : FactorOps.scope_product sc ≠ [] := by
  induction sc with
  | nil => exact fun hc => by cases hc
  | cons v rest ih =>
      obtain ⟨val, hval⟩ := List.exists_mem_of_ne_nil _ (h v (List.mem_cons_self _ _))
      obtain ⟨S, hS⟩ := List.exists_mem_of_ne_nil _
        (ih (fun w hw => h w (List.mem_cons_of_mem _ hw)))
      apply List.ne_nil_of_mem (a := insert (v.node_id, val) S)
      show _ ∈ FactorOps.scope_product (v :: rest)
      unfold FactorOps.scope_product
      exact List.mem_flatMap.mpr ⟨val, hval, List.mem_map.mpr ⟨S, hS, rfl⟩⟩

theorem sumPhi_pos_of_pos {f : Factor α} (hpos : ∀ S, 0 < f.fn S)
    (hdom : ∀ v ∈ f.scope, v.outcome_values ≠ []) : 0 < FactorOps.sumPhi f := by
  unfold FactorOps.sumPhi
  apply List.sum_pos
  · intro x hx
    obtain ⟨S, _, rfl⟩ := List.mem_map.mp hx
    exact hpos _
  · exact fun hmap => scope_product_ne_nil hdom (List.map_eq_nil_iff.mp hmap)

theorem cond_prod_ve_pos (m : PGModel α)
    (queries : List (NumCatRVariable α)) (evidences : List (String × α))
    (hpos : ∀ f ∈ m.factors, ∀ S, 0 < f.fn S)
    (hdom : ∀ f ∈ m.factors, ∀ v ∈ f.scope, v.outcome_values ≠ [])
    (hnodes : ∀ v ∈ m.nodes, v.outcome_values ≠ []) :
    0 < (cond_prod_by_variable_elimination m queries evidences).2 ∧
      ∀ q, FactorOps.phi_normal
          (cond_prod_by_variable_elimination m queries evidences).1 q =
        Except.ok ((cond_prod_by_variable_elimination m queries evidences).1.fn q /
          FactorOps.sumPhi (cond_prod_by_variable_elimination m queries evidences).1) := by
  have hposR : ∀ f ∈ m.factors.map (fun f => evidences.foldl FactorOps.reduce f),
      ∀ S, 0 < f.fn S := by
    intro f hf
    obtain ⟨f0, hf0, rfl⟩ := List.mem_map.mp hf
    exact pos_foldl_reduce _ _ (hpos f0 hf0)
  have hord : ∀ v ∈ m.nodes.filter (fun v =>
      !(decide (v.node_id ∈ scopeIds queries)) &&
        !(decide (v.node_id ∈ evidences.map (fun e => e.1)))),
      v.outcome_values ≠ [] :=
    fun v hv => hnodes v (List.mem_filter.mp hv).1
  have hresPos : ∀ S, 0 < (cond_prod_by_variable_elimination m queries evidences).1.fn S := by
    rw [show (cond_prod_by_variable_elimination m queries evidences).1 =
      veResultant m.factors evidences (m.nodes.filter (fun v =>
        !(decide (v.node_id ∈ scopeIds queries)) &&
          !(decide (v.node_id ∈ evidences.map (fun e => e.1))))) from rfl]
    exact pos_productList (pos_foldl_eliminate _ _ hposR hord)
  have hresDom : ∀ v ∈ (cond_prod_by_variable_elimination m queries evidences).1.scope,
      v.outcome_values ≠ [] := by
    intro v hv
    rw [show (cond_prod_by_variable_elimination m queries evidences).1 =
      veResultant m.factors evidences (m.nodes.filter (fun v =>
        !(decide (v.node_id ∈ scopeIds queries)) &&
          !(decide (v.node_id ∈ evidences.map (fun e => e.1))))) from rfl] at hv
    obtain ⟨g, hg, hgv⟩ := mem_scope_productList hv
    obtain ⟨f, hf, hfv⟩ := mem_scope_foldl_eliminate _ _ hg hgv
    obtain ⟨f0, hf0, rfl⟩ := List.mem_map.mp hf
    exact hdom f0 hf0 v (mem_scope_foldl_reduce _ _ hfv)
  have hZ : 0 < FactorOps.sumPhi (cond_prod_by_variable_elimination m queries evidences).1 :=
    sumPhi_pos_of_pos hresPos hresDom
  constructor
  · exact hZ
  · intro q
    unfold FactorOps.phi_normal
    rw [if_neg (ne_of_gt hZ)]

end Semantics

/-! ### The claims -/

section Claims

variable {α : Type} [DecidableEq α]

/-- C1: in the Darwiche example (three binary variables `a`, `b`, `c`, edges
a-b and b-c, factors phi(a,b), phi(c,b), phi(a)),
`cond_prod_by_variable_elimination` with evidence a = True and query c,
followed by `phi_normal` at c = True and rounding to 4 digits, returns
0.32. -/
theorem c1_darwiche_query_value :
    (FactorOps.phi_normal (DarwicheEx.queryResult).1 {("c", true)}).map
      (roundTo 4) = Except.ok 0.32 := by
  with_unfolding_all rfl

/-- C2: in the Bayesian-network example (binary C, E, D, F with edges
C→E, E→D, E→F and the four CPD factors), `cond_prod_by_variable_elimination`
with evidence F = True and query E yields a resultant factor whose raw value
at E = True, rounded to 4 digits, is 0.774. -/
theorem c2_bayes_posterior_value :
    roundTo 4 (FactorOps.phi (BayesEx.queryResult).1 {("E", true)}) = 0.774 := by
  with_unfolding_all rfl

/-- C3: in the misconception Markov-network example (binary A, B, C, D in a
4-cycle with the four given potentials), `cond_prod_by_variable_elimination`
with empty evidence and query {A, B}, normalized at (A = False, B = True) and
rounded to 2 digits, returns 0.69. -/
theorem c3_misconception_query_value :
    (FactorOps.phi_normal (MisconceptionEx.queryResult).1
      {("A", false), ("B", true)}).map (roundTo 2) = Except.ok 0.69 := by
  with_unfolding_all rfl

/-- C4: the Cowell 2005 LWF chain graph (9 binary nodes, 9 directed edges,
1 undirected edge Cough-Dysponea, 10 factors) satisfies the chain-graph
mixed-edge invariant, and `cond_prod_by_variable_elimination` with evidence
VisitAsia = True, Smoking = True, Xray = False and query Bronchitis,
normalized at Bronchitis = True and rounded to 4 digits, returns 0.60. -/
theorem c4_cowell_invariant_and_query_value :
    lwf_mixed_edge_invariant CowellEx.cowell.nodes CowellEx.cowell.edges = true ∧
      (FactorOps.phi_normal (CowellEx.queryResult).1
        {("Bronchitis", true)}).map (roundTo 4) = Except.ok 0.6 := by
  constructor
  · with_unfolding_all rfl
  · with_unfolding_all rfl

set_option maxHeartbeats 3200000 in
/-- C5: in the conditional-random-field example (observed X_1, X_2, X_3,
target Y_1, exponential-weight factors with `e` standing for `math.exp`,
which satisfies `exp 0 = 1` exactly), `cond_prod_by_variable_elimination`
with evidence Y_1 = False and query {X_1, X_2, X_3} yields a resultant
factor whose raw value is exactly 1 at every one of the 8 fully specified
assignments over the observed variables. -/
theorem c5_crf_resultant_value_one (e : ℚ → ℚ) (he : e 0 = 1)
    (x1 x2 x3 : Bool) :
    FactorOps.phi (CrfEx.queryResult e).1
      {("X_1", x1), ("X_2", x2), ("X_3", x3)} = 1 := by
  have h2 : e 0 * (e 0 * (e 0 * (e 0 * 1))) = 1 := by rw [he]; norm_num
  cases x1 <;> cases x2 <;> cases x3 <;>
    exact Eq.trans (by with_unfolding_all rfl) h2

/-- Witness for C5 at a concrete exponential stand-in and assignment. -/
theorem c5_crf_resultant_value_one_witness :
    FactorOps.phi (CrfEx.queryResult (fun _ => 1)).1
      {("X_1", true), ("X_2", false), ("X_3", true)} = 1 :=
  c5_crf_resultant_value_one (fun _ => 1) rfl true false true

/-- C6: the sum-product variable-elimination engine is invariant to the
elimination order: for any factor list, evidence, and two elimination orders
that are permutations of each other (well-formed: pairwise distinct order
ids, duplicate-free factor scopes, and variables shared consistently by id),
the resultant factors agree at every total valuation and the normalization
constants coincide. -/
theorem c6_variable_elimination_order_invariant [Inhabited α]
    (factors : List (Factor α)) (evidences : List (String × α))
    (o1 o2 : List (NumCatRVariable α)) (hperm : o1.Perm o2)
    (hnd : (o1.map (fun v => v.node_id)).Nodup)
    (hsc : ∀ f ∈ factors, (scopeIds f.scope).Nodup)
    (hcons : ∀ f ∈ factors, ∀ g ∈ factors, ∀ v ∈ f.scope, ∀ w ∈ g.scope,
      v.node_id = w.node_id → v = w) :
    (∀ σ : String → α,
        evalAt (sum_product_ve factors evidences o1).1 σ =
          evalAt (sum_product_ve factors evidences o2).1 σ) ∧
      (sum_product_ve factors evidences o1).2 =
        (sum_product_ve factors evidences o2).2 := by
  constructor
  · intro σ
    rw [sum_product_ve_fst, sum_product_ve_fst]
    exact evalAt_veResultant_eq_of_perm factors evidences o1 o2 hperm hnd σ
  · rw [sum_product_ve_snd, sum_product_ve_snd]
    exact sumPhi_veResultant_eq_of_perm factors evidences o1 o2 hperm hnd hsc hcons

/-- Witness for C6 on the Darwiche model with the two orders [b, c] and
[c, b]. -/
theorem c6_variable_elimination_order_invariant_witness :
    (sum_product_ve [DarwicheEx.a_f] [] [DarwicheEx.b, DarwicheEx.c]).2 =
      (sum_product_ve [DarwicheEx.a_f] [] [DarwicheEx.c, DarwicheEx.b]).2 := by
  have h := c6_variable_elimination_order_invariant
    [DarwicheEx.a_f] [] [DarwicheEx.b, DarwicheEx.c] [DarwicheEx.c, DarwicheEx.b]
    (List.Perm.swap DarwicheEx.c DarwicheEx.b [])
    (by with_unfolding_all decide)
    (by
      intro f hf
      rw [List.mem_singleton] at hf
      subst hf
      with_unfolding_all decide)
    (by
      intro f hf g hg v hv w hw _
      rw [List.mem_singleton] at hf hg
      subst hf
      subst hg
      rw [show DarwicheEx.a_f.scope = [DarwicheEx.a] from rfl,
        List.mem_singleton] at hv hw
      subst hv
      subst hw
      rfl)
  exact h.2

/-- C7: the factor product has scope equal to the union of the two scopes
(as id sets), its value at every assignment is the product of the operands
at the restrictions of the assignment to their scopes (also under every
total valuation), and the operation is commutative: `Product(f1, f2)` and
`Product(f2, f1)` have the same scope and the same value everywhere. -/
theorem c7_factor_product_scope_value_commutative (f1 f2 : Factor α) :
    (∀ x, x ∈ scopeIds (FactorOps.product f1 f2).scope ↔
        x ∈ scopeIds f1.scope ∨ x ∈ scopeIds f2.scope) ∧
      (∀ S, (FactorOps.product f1 f2).fn S =
        f1.fn (restrict (scopeIds f1.scope) S) *
          f2.fn (restrict (scopeIds f2.scope) S)) ∧
      (∀ σ : String → α,
        evalAt (FactorOps.product f1 f2) σ = evalAt f1 σ * evalAt f2 σ) ∧
      (∀ x, x ∈ scopeIds (FactorOps.product f1 f2).scope ↔
        x ∈ scopeIds (FactorOps.product f2 f1).scope) ∧
      (∀ S, (FactorOps.product f1 f2).fn S = (FactorOps.product f2 f1).fn S) :=
  ⟨fun _ => mem_scopeIds_product,
    fun _ => rfl,
    evalAt_product f1 f2,
    fun x => by rw [mem_scopeIds_product, mem_scopeIds_product]; tauto,
    fun _ => mul_comm _ _⟩

/-- C8: `phi_normal` divides the factor's value at the query assignment by
the sum of its values over all assignments of its scope, raises
`DivisionByZeroError` exactly when that denominator is zero, and for every
input it either returns a rational or raises this error. -/
theorem c8_phi_normal_division_by_zero (f : Factor α) (q : Finset (String × α)) :
    (((FactorOps.scope_product f.scope).map f.fn).sum ≠ 0 →
        FactorOps.phi_normal f q =
          Except.ok (f.fn q / ((FactorOps.scope_product f.scope).map f.fn).sum)) ∧
      (((FactorOps.scope_product f.scope).map f.fn).sum = 0 →
        FactorOps.phi_normal f q = Except.error "DivisionByZeroError") ∧
      ((∃ r, FactorOps.phi_normal f q = Except.ok r) ∨
        FactorOps.phi_normal f q = Except.error "DivisionByZeroError") := by
  unfold FactorOps.phi_normal FactorOps.sumPhi
  by_cases h : ((FactorOps.scope_product f.scope).map f.fn).sum = 0
  · rw [if_pos h]
    exact ⟨fun hc => absurd h hc, fun _ => rfl, Or.inr rfl⟩
  · rw [if_neg h]
    exact ⟨fun _ => rfl, fun hc => absurd hc h, Or.inl ⟨_, rfl⟩⟩

/-- Witness for C8 on the single-variable factor of the Darwiche example. -/
theorem c8_phi_normal_division_by_zero_witness :
    FactorOps.phi_normal DarwicheEx.a_f {("a", true)} =
      Except.ok (DarwicheEx.a_f.fn {("a", true)} /
        ((FactorOps.scope_product DarwicheEx.a_f.scope).map DarwicheEx.a_f.fn).sum) :=
  (c8_phi_normal_division_by_zero DarwicheEx.a_f {("a", true)}).1
    (by with_unfolding_all decide)

/-- C9: when a model is built with `factors = None`, the derived factor set
has exactly one factor per edge; that factor's scope is the edge's two
endpoints and its function maps each joint assignment of the two endpoints
to the product of the endpoints' own marginal distributions at their
assigned values. -/
theorem c9_default_factor_set (edges : List (Edge α)) :
    (modelFactors edges none).length = edges.length ∧
      ∀ e ∈ edges, defaultFactor e ∈ modelFactors edges none ∧
        (defaultFactor e).scope = [e.start_node, e.end_node] ∧
        (e.start_node.node_id ≠ e.end_node.node_id →
          ∀ v1 v2 : α, (defaultFactor e).fn
              {(e.start_node.node_id, v1), (e.end_node.node_id, v2)} =
            e.start_node.marginal_distribution v1 *
              e.end_node.marginal_distribution v2) := by
  refine ⟨List.length_map _ _, ?_⟩
  intro e he
  refine ⟨List.mem_map.mpr ⟨e, he, rfl⟩, rfl, ?_⟩
  intro hne v1 v2
  show (Finset.filter _ _).prod _ * (Finset.filter _ _).prod _ = _
  rw [show ({(e.start_node.node_id, v1), (e.end_node.node_id, v2)} :
      Finset (String × α)) =
    insert (e.start_node.node_id, v1) {(e.end_node.node_id, v2)} from rfl]
  rw [Finset.filter_insert, Finset.filter_insert]
  rw [if_pos rfl, if_neg (by simpa using hne)]
  rw [Finset.filter_singleton, Finset.filter_singleton]
  rw [if_neg (by simpa using Ne.symm hne), if_pos rfl]
  simp

/-- Witness for C9 on the a-b edge of the Darwiche example. -/
theorem c9_default_factor_set_witness :
    (defaultFactor DarwicheEx.ab).fn
      {(DarwicheEx.ab.start_node.node_id, true),
        (DarwicheEx.ab.end_node.node_id, true)} = 3 / 10 := by
  have h := ((c9_default_factor_set [DarwicheEx.ab]).2 DarwicheEx.ab
    (List.mem_cons_self _ _)).2.2 (by with_unfolding_all decide) true true
  exact h.trans (by with_unfolding_all decide)

/-- C10: every factor function of the conditional-random-field example is
strictly positive at every assignment (it returns the exponential of a
weight), and consequently, for every query set and evidence set over this
model, the normalization denominator is strictly positive and `phi_normal`
on the resultant factor never takes the `DivisionByZeroError` branch. -/
theorem c10_crf_positive_normalization (e : ℚ → ℚ) (he : ∀ x, 0 < e x) :
    (∀ f ∈ (CrfEx.crf_koller e).factors, ∀ S, 0 < f.fn S) ∧
      ∀ (queries : List (NumCatRVariable Bool)) (evidences : List (String × Bool)),
        0 < (cond_prod_by_variable_elimination (CrfEx.crf_koller e) queries evidences).2 ∧
        ∀ q, FactorOps.phi_normal
            (cond_prod_by_variable_elimination (CrfEx.crf_koller e) queries evidences).1 q =
          Except.ok
            ((cond_prod_by_variable_elimination (CrfEx.crf_koller e) queries evidences).1.fn q /
              FactorOps.sumPhi
                (cond_prod_by_variable_elimination (CrfEx.crf_koller e) queries evidences).1) := by
  have hpos : ∀ f ∈ (CrfEx.crf_koller e).factors, ∀ S, 0 < f.fn S := by
    intro f hf S
    fin_cases hf <;>
      (dsimp only [CrfEx.X1_Y1_f, CrfEx.X2_Y1_f, CrfEx.X3_Y1_f, CrfEx.Y1_f,
        CrfEx.phi_X1_Y1_fn, CrfEx.phi_X2_Y1_fn, CrfEx.phi_X3_Y1_fn,
        CrfEx.phi_Y1_fn] <;> split <;> exact he _)
  refine ⟨hpos, ?_⟩
  intro queries evidences
  apply cond_prod_ve_pos (CrfEx.crf_koller e) queries evidences hpos
  · intro f hf v hv
    fin_cases hf <;> fin_cases hv <;> decide
  · intro v hv
    fin_cases hv <;> decide

/-- Witness for C10 with a concrete positive exponential stand-in. -/
theorem c10_crf_positive_normalization_witness :
    0 < (cond_prod_by_variable_elimination
      (CrfEx.crf_koller (fun _ => 1)) [] []).2 :=
  ((c10_crf_positive_normalization (fun _ => 1) (fun _ => one_pos)).2 [] []).1

end Claims

end PyGModels

